import Mathlib

/-!
Verification development for the mixture density network example
(`examples/tf_mixture_density_network.py`).

The script defines a class `MixtureDensityNetwork` whose method
`neural_network` maps an input batch `X` (shape N×1) through two
fully-connected hidden layers of 25 rectified-linear units and three
fully-connected output heads of width `K` (linear `mus`, exponential
`sigmas`, softmax `pi`), and whose method `log_prob` computes

  `tf.reduce_sum(tf.log(tf.reduce_sum(pi * tf.exp(norm.logpdf(y, mus, sigmas)), 1)))`.

We embed those computations over the reals: batches are `Fin N → Fin 1 → ℝ`,
head outputs `Fin N → Fin K → ℝ`, and the tensor reductions become `Finset`
sums.  The module-level training loop (lines 86–94) is embedded as a fold,
generic over the optimizer step that the `edward` backend supplies, and the
per-call rebuilding of the keras `Dense` layers inside `neural_network` is
embedded as a state machine consuming a stream of freshly drawn parameter
sets.
-/

open Filter Topology

noncomputable section

/-- Rectified-linear activation, `K.relu` from the keras backend. -/
def relu (x : ℝ) : ℝ := max x 0

/-- Affine part of a fully-connected (`Dense`) layer: input row `x` of width
`m`, kernel `W : m × n`, bias `b`, output width `n` (no activation). -/
def denseAffine {m n : ℕ} (W : Fin m → Fin n → ℝ) (b : Fin n → ℝ)
    (x : Fin m → ℝ) : Fin n → ℝ :=
  fun j => (∑ i, x i * W i j) + b j

/-- `Dense(n, activation=K.relu)`: affine map followed by pointwise relu. -/
def denseRelu {m n : ℕ} (W : Fin m → Fin n → ℝ) (b : Fin n → ℝ)
    (x : Fin m → ℝ) : Fin n → ℝ :=
  fun j => relu (denseAffine W b x j)

/-- `Dense(n, activation=K.exp)`: affine map followed by pointwise exp. -/
def denseExp {m n : ℕ} (W : Fin m → Fin n → ℝ) (b : Fin n → ℝ)
    (x : Fin m → ℝ) : Fin n → ℝ :=
  fun j => Real.exp (denseAffine W b x j)

/-- Normalized-exponential (softmax) over a width-`n` vector,
`K.softmax` from the keras backend. -/
def softmaxFun {n : ℕ} (z : Fin n → ℝ) : Fin n → ℝ :=
  fun j => Real.exp (z j) / ∑ i, Real.exp (z i)

/-- `Dense(n, activation=K.softmax)`: affine map followed by softmax
over the whole output row. -/
def denseSoftmax {m n : ℕ} (W : Fin m → Fin n → ℝ) (b : Fin n → ℝ)
    (x : Fin m → ℝ) : Fin n → ℝ :=
  softmaxFun (denseAffine W b x)

/-- Modelled from the spec: `edward.stats.norm.logpdf` is part of the
`edward` package, not of the example file under `src/`; the spec describes it
as the log of "the Gaussian density of y[i] under mean mu[i][k] and standard
deviation sigma[i][k]".  This is the standard Gaussian log-density. -/
def normLogpdf (y mu sigma : ℝ) : ℝ :=
  -Real.log (sigma * Real.sqrt (2 * Real.pi)) - (y - mu) ^ 2 / (2 * sigma ^ 2)

/-- The parameter set `theta` of the network built by `neural_network`:
kernels and biases of the two hidden `Dense(25)` layers and of the three
width-`K` output heads. -/
structure NNParams (K : ℕ) where
  W1 : Fin 1 → Fin 25 → ℝ
  b1 : Fin 25 → ℝ
  W2 : Fin 25 → Fin 25 → ℝ
  b2 : Fin 25 → ℝ
  Wmu : Fin 25 → Fin K → ℝ
  bmu : Fin K → ℝ
  Wsigma : Fin 25 → Fin K → ℝ
  bsigma : Fin K → ℝ
  Wpi : Fin 25 → Fin K → ℝ
  bpi : Fin K → ℝ

/-- The three mixture-parameter batches stored by `neural_network` in
`self.pi`, `self.mus`, `self.sigmas`, each of shape N×K. -/
structure Heads (N K : ℕ) where
  pi : Fin N → Fin K → ℝ
  mus : Fin N → Fin K → ℝ
  sigmas : Fin N → Fin K → ℝ

/-- `MixtureDensityNetwork.neural_network` (source lines 38–45), as a
function of the parameter set `θ` and the input batch `X` (shape N×1):

    hidden1 = Dense(25, activation=K.relu)(X)
    hidden2 = Dense(25, activation=K.relu)(hidden1)
    self.mus = Dense(self.K)(hidden2)
    self.sigmas = Dense(self.K, activation=K.exp)(hidden2)
    self.pi = Dense(self.K, activation=K.softmax)(hidden2)

`Dense` acts row-wise on a batch, so each row of `X` flows independently. -/
def networkHeads {N K : ℕ} (θ : NNParams K) (X : Fin N → Fin 1 → ℝ) :
    Heads N K :=
  let hidden1 : Fin N → Fin 25 → ℝ := fun i => denseRelu θ.W1 θ.b1 (X i)
  let hidden2 : Fin N → Fin 25 → ℝ := fun i => denseRelu θ.W2 θ.b2 (hidden1 i)
  { mus := fun i => denseAffine θ.Wmu θ.bmu (hidden2 i)
    sigmas := fun i => denseExp θ.Wsigma θ.bsigma (hidden2 i)
    pi := fun i => denseSoftmax θ.Wpi θ.bpi (hidden2 i) }

/-- The computation of `log_prob` after `neural_network` (source lines 53–55),
as a function of the mixture parameters and the target batch `y` (N×1, the
single column broadcast against the K components):

    result = self.pi * tf.exp(norm.logpdf(y, self.mus, self.sigmas))
    result = tf.log(tf.reduce_sum(result, 1))
    return tf.reduce_sum(result)
-/
def mixtureLogLik {N K : ℕ} (pi mus sigmas : Fin N → Fin K → ℝ)
    (y : Fin N → Fin 1 → ℝ) : ℝ :=
  ∑ i, Real.log (∑ k, pi i k * Real.exp (normLogpdf (y i 0) (mus i k) (sigmas i k)))

/-- `MixtureDensityNetwork.log_prob` (source lines 47–55): run
`neural_network` on `X`, then combine the stored heads with `y`. -/
def logProb {N K : ℕ} (θ : NNParams K) (X y : Fin N → Fin 1 → ℝ) : ℝ :=
  let h := networkHeads θ X
  mixtureLogLik h.pi h.mus h.sigmas y

/-- The architecture as the spec words it: two fully-connected hidden layers
of 25 rectified-linear units; the second hidden representation feeds three
independent fully-connected heads of width `K` — the `mu` head with identity
(linear) activation, the `sigma` head with exponential activation, the `pi`
head with softmax activation. -/
def archSpecHeads {N K : ℕ} (θ : NNParams K) (X : Fin N → Fin 1 → ℝ) :
    Heads N K :=
  let h2 : Fin N → Fin 25 → ℝ :=
    fun i => denseRelu θ.W2 θ.b2 (denseRelu θ.W1 θ.b1 (X i))
  { mus := fun i k => denseAffine θ.Wmu θ.bmu (h2 i) k
    sigmas := fun i k => Real.exp (denseAffine θ.Wsigma θ.bsigma (h2 i) k)
    pi := fun i => softmaxFun (denseAffine θ.Wpi θ.bpi (h2 i)) }

/-- Log-sum-exp of a vector of reals. -/
def logSumExp {K : ℕ} (v : Fin K → ℝ) : ℝ := Real.log (∑ k, Real.exp (v k))

/-- The numerically-stable formulation the spec describes: per row, a
log-sum-exp over `log pi[i][k] + log Normal(y[i]; mu[i][k], sigma[i][k])`,
summed over rows. -/
def mixtureLogLikLSE {N K : ℕ} (pi mus sigmas : Fin N → Fin K → ℝ)
    (y : Fin N → Fin 1 → ℝ) : ℝ :=
  ∑ i, logSumExp (fun k =>
    Real.log (pi i k) + normLogpdf (y i 0) (mus i k) (sigmas i k))

/-- The object constructed by `MixtureDensityNetwork(K)`: its `__init__`
(source lines 35–36) only stores the component count `K`, a Python integer,
with no validation. -/
structure MixtureDensityNetwork where
  K : Int

/-- `MixtureDensityNetwork.__init__` (source lines 35–36): `self.K = K`. -/
def MixtureDensityNetwork.init (K : Int) : MixtureDensityNetwork := ⟨K⟩

/-- `NEPOCH` (source line 86). -/
def NEPOCH : ℕ := 20

/-- The module-level training loop (source lines 87–94), generic over the
backend: `update` models `inference.update(feed_dict=...)` — one optimizer
step on the training data returning the new parameter set together with the
reported train loss (`info_dict['loss']`) — and `evalLoss` models
`sess.run(inference.loss, feed_dict=...)` on the held-out test set, a pure
read of the loss at the current parameters.  Modelled from the spec for the
backend parts: `ed.MAP.update` and the loss tensor are `edward` internals
not under `src/`; the spec states that each epoch performs one optimizer
step and that the test loss is then evaluated "without parameter updates".
Returns the final parameters and the per-epoch `train_loss` / `test_loss`
records. -/
def trainLoop {Θ : Type} (update : Θ → Θ × ℝ) (evalLoss : Θ → ℝ) :
    ℕ → Θ → Θ × (List ℝ × List ℝ)
  | 0, θ => (θ, ([], []))
  | n + 1, θ =>
    let step := update θ
    let rest := trainLoop update evalLoss n step.1
    (rest.1, (step.2 :: rest.2.1, evalLoss step.1 :: rest.2.2))

/-- The mutable attributes of a `MixtureDensityNetwork` object during a
sequence of `log_prob` calls: how many times `neural_network` has run (each
run builds brand-new `Dense` layers, i.e. draws the next freshly initialized
parameter set from the initialization stream), and the last stored
`self.pi`, `self.mus`, `self.sigmas` (absent before the first call). -/
structure MDNState (N K : ℕ) where
  calls : ℕ
  stored : Option (Heads N K)

/-- One call of `MixtureDensityNetwork.log_prob` (source lines 47–55) on an
object in state `s`: `neural_network` constructs new `Dense` layers — the
parameter set `ps s.calls`, the next entry of the fresh-initialization
stream `ps` — overwrites the stored heads, and the mixture log-likelihood of
`(X, y)` under those heads is returned. -/
def logProbCall {N K : ℕ} (ps : ℕ → NNParams K) (s : MDNState N K)
    (X y : Fin N → Fin 1 → ℝ) : MDNState N K × ℝ :=
  let h := networkHeads (ps s.calls) X
  (⟨s.calls + 1, some h⟩, mixtureLogLik h.pi h.mus h.sigmas y)

/-- A sequence of `log_prob` calls, threading the object state. -/
def runCalls {N K : ℕ} (ps : ℕ → NNParams K) :
    MDNState N K → List ((Fin N → Fin 1 → ℝ) × (Fin N → Fin 1 → ℝ)) →
      MDNState N K
  | s, [] => s
  | s, c :: rest => runCalls ps (logProbCall ps s c.1 c.2).1 rest

/-- All-zero parameter set for `K = 1`, used to instantiate theorems. -/
def zeroParams : NNParams 1 :=
  { W1 := fun _ _ => 0, b1 := fun _ => 0, W2 := fun _ _ => 0, b2 := fun _ => 0
    Wmu := fun _ _ => 0, bmu := fun _ => 0, Wsigma := fun _ _ => 0
    bsigma := fun _ => 0, Wpi := fun _ _ => 0, bpi := fun _ => 0 }

/-- An all-zero 1×1 batch, used to instantiate theorems. -/
def zeroBatch : Fin 1 → Fin 1 → ℝ := fun _ _ => 0

/-- A concrete injective stream of `K = 1` parameter sets (the `n`-th draw
has first-layer bias `n`), standing for fresh independent initializations. -/
def freshStream : ℕ → NNParams 1 :=
  fun n => { zeroParams with b1 := fun _ => (n : ℝ) }

/-- The empty state of a freshly constructed object: no `neural_network`
call yet, no stored heads. -/
def startState : MDNState 1 1 := ⟨0, none⟩

end

/-- Softmax rows sum to 1 (the denominator is positive once `n ≥ 1`). -/
theorem softmaxFun_sum_one {n : ℕ} (hn : 1 ≤ n) (z : Fin n → ℝ) :
    ∑ j, softmaxFun z j = 1 := by
  have hne : (Finset.univ : Finset (Fin n)).Nonempty := ⟨⟨0, hn⟩, Finset.mem_univ _⟩
  have hpos : 0 < ∑ i, Real.exp (z i) :=
    Finset.sum_pos (fun i _ => Real.exp_pos _) hne
  unfold softmaxFun
  rw [← Finset.sum_div]
  exact div_self (ne_of_gt hpos)

/-- A width-1 softmax always outputs 1. -/
theorem softmaxFun_single (z : Fin 1 → ℝ) : softmaxFun z 0 = 1 := by
  have h := softmaxFun_sum_one (le_refl 1) z
  rwa [Fin.sum_univ_one] at h

/-- C1: `log_prob(X, y)` equals the sum over rows `i` of the log of the sum
over components `k` of `pi[i][k]` times the Gaussian density of `y[i]` with
mean `mu[i][k]` and standard deviation `sigma[i][k]`, where `pi`, `mus`,
`sigmas` are the mixture parameters `neural_network` computes from `X`. -/
theorem logProb_eq_sum_log_mixture {N K : ℕ} (θ : NNParams K)
    (X y : Fin N → Fin 1 → ℝ) :
    logProb θ X y =
      ∑ i, Real.log (∑ k,
        (networkHeads θ X).pi i k *
          Real.exp (normLogpdf (y i 0) ((networkHeads θ X).mus i k)
            ((networkHeads θ X).sigmas i k))) := rfl

/-- C2: for `K ≥ 1` the mixture parameters computed by `neural_network` are
N×K batches (their types) with each row of `pi` summing to exactly 1 and
every entry of `sigmas` strictly positive. -/
theorem networkHeads_pi_sum_one_sigma_pos {N K : ℕ} (θ : NNParams K)
    (X : Fin N → Fin 1 → ℝ) (hK : 1 ≤ K) (i : Fin N) (k : Fin K) :
    (∑ j, (networkHeads θ X).pi i j) = 1 ∧ 0 < (networkHeads θ X).sigmas i k := by
  constructor
  · exact softmaxFun_sum_one hK _
  · exact Real.exp_pos _

/-- Witness for C2 at `N = K = 1` with all parameters zero. -/
theorem networkHeads_pi_sum_one_sigma_pos_witness :
    (1 : ℕ) ≤ 1 ∧
      ((∑ j, (networkHeads zeroParams zeroBatch).pi 0 j) = 1 ∧
        0 < (networkHeads zeroParams zeroBatch).sigmas 0 0) :=
  ⟨le_refl 1,
    networkHeads_pi_sum_one_sigma_pos zeroParams zeroBatch (le_refl 1) 0 0⟩

/-- C3: `neural_network` is exactly two 25-unit relu hidden layers feeding
three independent width-`K` heads with linear, exponential and softmax
activations. -/
theorem networkHeads_eq_archSpec {N K : ℕ} (θ : NNParams K)
    (X : Fin N → Fin 1 → ℝ) :
    networkHeads θ X = archSpecHeads θ X := rfl

/-- C4: in exact real arithmetic, exponentiating the per-component Gaussian
log-densities, weighting by (positive) `pi`, summing and re-logging — the
reference computation in `log_prob` — coincides with the log-sum-exp over
`log pi[i][k] + log density`. -/
theorem mixtureLogLik_eq_logSumExp {N K : ℕ}
    (pi mus sigmas : Fin N → Fin K → ℝ) (y : Fin N → Fin 1 → ℝ)
    (hpi : ∀ i k, 0 < pi i k) :
    mixtureLogLik pi mus sigmas y = mixtureLogLikLSE pi mus sigmas y := by
  unfold mixtureLogLik mixtureLogLikLSE logSumExp
  refine Finset.sum_congr rfl fun i _ => ?_
  congr 1
  refine Finset.sum_congr rfl fun k _ => ?_
  rw [Real.exp_add, Real.exp_log (hpi i k)]

/-- Witness for C4 at `N = K = 1`, `pi = 1`, `mu = 0`, `sigma = 1`, `y = 0`. -/
theorem mixtureLogLik_eq_logSumExp_witness :
    mixtureLogLik (N := 1) (K := 1) (fun _ _ => 1) (fun _ _ => 0)
        (fun _ _ => 1) (fun _ _ => 0) =
      mixtureLogLikLSE (N := 1) (K := 1) (fun _ _ => 1) (fun _ _ => 0)
        (fun _ _ => 1) (fun _ _ => 0) :=
  mixtureLogLik_eq_logSumExp (N := 1) (K := 1) (fun _ _ => 1) (fun _ _ => 0)
    (fun _ _ => 1) (fun _ _ => 0) (fun _ _ => one_pos)

/-- C5: the `log_prob` computation on mixture parameters is invariant under
any permutation of the component indices applied consistently to `pi`, `mus`
and `sigmas` (label-switching symmetry). -/
theorem mixtureLogLik_perm_invariant {N K : ℕ}
    (pi mus sigmas : Fin N → Fin K → ℝ) (y : Fin N → Fin 1 → ℝ)
    (p : Equiv.Perm (Fin K)) :
    mixtureLogLik (fun i k => pi i (p k)) (fun i k => mus i (p k))
        (fun i k => sigmas i (p k)) y =
      mixtureLogLik pi mus sigmas y := by
  unfold mixtureLogLik
  refine Finset.sum_congr rfl fun i _ => ?_
  congr 1
  exact Equiv.sum_comp p
    (fun k => pi i k * Real.exp (normLogpdf (y i 0) (mus i k) (sigmas i k)))

/-- As the standard deviation tends to 0 from above while `y ≠ mu`, the
Gaussian log-density of `y` diverges to `-∞`. -/
theorem normLogpdf_tendsto_atBot (y mu : ℝ) (h : y ≠ mu) :
    Tendsto (fun s => normLogpdf y mu s) (𝓝[>] (0 : ℝ)) atBot := by
  have hcpos : 0 < (y - mu) ^ 2 :=
    pow_two_pos_of_ne_zero (sub_ne_zero.mpr h)
  have hmul : Tendsto (fun t : ℝ => (y - mu) ^ 2 / 2 * t) atTop atTop :=
    Tendsto.const_mul_atTop (by positivity) tendsto_id
  have h1 : Tendsto (fun t : ℝ => (y - mu) ^ 2 / 2 * t - 1) atTop atTop := by
    simpa [sub_eq_add_neg] using tendsto_atTop_add_const_right atTop (-1) hmul
  have h2 : Tendsto (fun t : ℝ => t * ((y - mu) ^ 2 / 2 * t - 1)) atTop atTop :=
    Tendsto.atTop_mul_atTop tendsto_id h1
  have h3 : Tendsto (fun t : ℝ => (y - mu) ^ 2 * t ^ 2 / 2 - t) atTop atTop := by
    have he : (fun t : ℝ => (y - mu) ^ 2 * t ^ 2 / 2 - t)
        = fun t : ℝ => t * ((y - mu) ^ 2 / 2 * t - 1) := by
      funext t; ring
    rw [he]; exact h2
  have h4 : Tendsto (fun t : ℝ => -((y - mu) ^ 2 * t ^ 2 / 2 - t)) atTop atBot :=
    tendsto_neg_atTop_atBot.comp h3
  have h5 : Tendsto (fun t : ℝ =>
      -((y - mu) ^ 2 * t ^ 2 / 2 - t) - Real.log (Real.sqrt (2 * Real.pi)))
      atTop atBot := by
    simpa [sub_eq_add_neg] using
      tendsto_atBot_add_const_right atTop (-Real.log (Real.sqrt (2 * Real.pi))) h4
  have hG : Tendsto (fun t : ℝ =>
      Real.log t - Real.log (Real.sqrt (2 * Real.pi)) - (y - mu) ^ 2 * t ^ 2 / 2)
      atTop atBot := by
    apply tendsto_atBot_mono' atTop ?_ h5
    filter_upwards [eventually_ge_atTop (1 : ℝ)] with t ht
    have ht0 : (0 : ℝ) < t := lt_of_lt_of_le one_pos ht
    have hlog := Real.log_le_sub_one_of_pos ht0
    linarith
  have hcomp : Tendsto (fun s : ℝ =>
      Real.log s⁻¹ - Real.log (Real.sqrt (2 * Real.pi)) - (y - mu) ^ 2 * (s⁻¹) ^ 2 / 2)
      (𝓝[>] (0 : ℝ)) atBot := hG.comp tendsto_inv_zero_atTop
  apply hcomp.congr'
  filter_upwards [self_mem_nhdsWithin] with s hs
  have hs0 : (0 : ℝ) < s := hs
  have hsne : s ≠ 0 := ne_of_gt hs0
  have hsqrt : Real.sqrt (2 * Real.pi) ≠ 0 :=
    ne_of_gt (Real.sqrt_pos.mpr (by positivity))
  simp only [normLogpdf]
  rw [Real.log_inv, Real.log_mul hsne hsqrt]
  field_simp
  ring

/-- C6: `MixtureDensityNetwork.__init__` performs no validation — a
construction with `K ≤ 0` is accepted and simply stores `K` — and `log_prob`
has no guard on `sigma`: as a stored standard deviation collapses to 0 (from
above, with the target off the mean), the computed log-likelihood diverges
to `-∞` (the real counterpart of the floating-point `-inf`/`NaN`), no error
being signalled anywhere. -/
theorem init_unvalidated_and_sigma_collapse :
    (∀ k : Int, k ≤ 0 → (MixtureDensityNetwork.init k).K = k) ∧
      (∀ y mu : ℝ, y ≠ mu →
        Tendsto (fun s => mixtureLogLik (N := 1) (K := 1) (fun _ _ => 1)
            (fun _ _ => mu) (fun _ _ => s) (fun _ _ => y))
          (𝓝[>] (0 : ℝ)) atBot) := by
  constructor
  · intro k _
    rfl
  · intro y mu h
    have hred : (fun s => mixtureLogLik (N := 1) (K := 1) (fun _ _ => 1)
        (fun _ _ => mu) (fun _ _ => s) (fun _ _ => y))
        = fun s => normLogpdf y mu s := by
      funext s
      simp [mixtureLogLik, Fin.sum_univ_one, Real.log_exp]
    rw [hred]
    exact normLogpdf_tendsto_atBot y mu h

/-- Witness for C6: `K = -1` is stored unvalidated, and with `y = 1`,
`mu = 0` the log-likelihood diverges to `-∞` as `sigma` collapses to 0. -/
theorem init_unvalidated_and_sigma_collapse_witness :
    (MixtureDensityNetwork.init (-1)).K = -1 ∧
      Tendsto (fun s => mixtureLogLik (N := 1) (K := 1) (fun _ _ => 1)
          (fun _ _ => 0) (fun _ _ => s) (fun _ _ => 1))
        (𝓝[>] (0 : ℝ)) atBot :=
  ⟨init_unvalidated_and_sigma_collapse.1 (-1) (by norm_num),
    init_unvalidated_and_sigma_collapse.2 1 0 (by norm_num)⟩

/-- C7: for `K = 1`, `log_prob` collapses to the log-likelihood of the single
Gaussian with mean `mus[:,0]` and standard deviation `sigmas[:,0]`: the
width-1 softmax forces the lone mixture weight to 1. -/
theorem logProb_single_component {N : ℕ} (θ : NNParams 1)
    (X y : Fin N → Fin 1 → ℝ) :
    logProb θ X y =
      ∑ i, normLogpdf (y i 0) ((networkHeads θ X).mus i 0)
        ((networkHeads θ X).sigmas i 0) := by
  unfold logProb mixtureLogLik
  refine Finset.sum_congr rfl fun i _ => ?_
  rw [Fin.sum_univ_one]
  have h1 : (networkHeads θ X).pi i 0 = 1 := softmaxFun_single _
  rw [h1, one_mul, Real.log_exp]

/-- Structural description of one step of `trainLoop`, by induction on the
epoch count: the loss records have one entry per epoch, the final parameters
are the `n`-fold iterate of the optimizer step, and the `i`-th test loss is
the pure evaluation at the parameters after `i + 1` update steps. -/
theorem trainLoop_spec {Θ : Type} (u : Θ → Θ × ℝ) (e : Θ → ℝ) (n : ℕ) (θ0 : Θ) :
    (trainLoop u e n θ0).2.1.length = n ∧
      (trainLoop u e n θ0).2.2.length = n ∧
      (trainLoop u e n θ0).1 = (fun t => (u t).1)^[n] θ0 ∧
      ∀ i, i < n → (trainLoop u e n θ0).2.2.get? i =
        some (e ((fun t => (u t).1)^[i + 1] θ0)) := by
  induction n generalizing θ0 with
  | zero =>
    exact ⟨rfl, rfl, rfl, fun i hi => absurd hi (Nat.not_lt_zero i)⟩
  | succ n ih =>
    obtain ⟨hl1, hl2, hfin, hget⟩ := ih (u θ0).1
    refine ⟨?_, ?_, ?_, ?_⟩
    · simpa [trainLoop] using hl1
    · simpa [trainLoop] using hl2
    · rw [Function.iterate_succ_apply]
      simpa [trainLoop] using hfin
    · intro i hi
      cases i with
      | zero =>
        simp [trainLoop, Function.iterate_one]
      | succ i =>
        have hi' : i < n := by omega
        have hg := hget i hi'
        rw [Function.iterate_succ_apply]
        simpa [trainLoop] using hg

/-- C8: the training loop runs exactly `NEPOCH = 20` epochs; each epoch
applies exactly one optimizer update on the training data (the final
parameters are the 20-fold iterate of the update step, and both loss records
have 20 entries), and each recorded test loss is the pure evaluation
`evalLoss` at the parameters produced by the updates alone — the evaluation
itself changes no parameters. -/
theorem trainLoop_runs_twenty_epochs {Θ : Type} (u : Θ → Θ × ℝ) (e : Θ → ℝ)
    (θ0 : Θ) :
    (trainLoop u e NEPOCH θ0).2.1.length = NEPOCH ∧
      (trainLoop u e NEPOCH θ0).2.2.length = NEPOCH ∧
      (trainLoop u e NEPOCH θ0).1 = (fun t => (u t).1)^[NEPOCH] θ0 ∧
      ∀ i, i < NEPOCH → (trainLoop u e NEPOCH θ0).2.2.get? i =
        some (e ((fun t => (u t).1)^[i + 1] θ0)) :=
  trainLoop_spec u e NEPOCH θ0

/-- Witness for C8 with natural-number parameters, the update step adding 1
and reporting train loss 0, and the test loss reading the parameter value. -/
theorem trainLoop_runs_twenty_epochs_witness :
    (trainLoop (fun t : ℕ => (t + 1, (0 : ℝ))) (fun t : ℕ => (t : ℝ))
        NEPOCH 0).2.2.get? 0 =
      some ((fun t : ℕ => (t : ℝ))
        ((fun t : ℕ => ((fun t : ℕ => (t + 1, (0 : ℝ))) t).1)^[0 + 1] 0)) :=
  (trainLoop_runs_twenty_epochs (fun t : ℕ => (t + 1, (0 : ℝ)))
    (fun t : ℕ => (t : ℝ)) 0).2.2.2 0 (by norm_num [NEPOCH])

/-- C9: `log_prob` is deterministic in its inputs once the parameter set is
fixed — a two-run equality with no hidden state. -/
theorem logProb_deterministic {N K : ℕ} (θ : NNParams K)
    (X1 y1 X2 y2 : Fin N → Fin 1 → ℝ) (hX : X1 = X2) (hy : y1 = y2) :
    logProb θ X1 y1 = logProb θ X2 y2 := by
  rw [hX, hy]

/-- Witness for C9: two runs on the zero batch with the zero parameters. -/
theorem logProb_deterministic_witness :
    logProb zeroParams zeroBatch zeroBatch = logProb zeroParams zeroBatch zeroBatch :=
  logProb_deterministic zeroParams zeroBatch zeroBatch zeroBatch zeroBatch rfl rfl

/-- After a call sequence ending in `(X, y)`, the stored heads are those of
the last call, computed with the parameter set drawn at the last call. -/
theorem runCalls_append_stored {N K : ℕ} (ps : ℕ → NNParams K)
    (L : List ((Fin N → Fin 1 → ℝ) × (Fin N → Fin 1 → ℝ))) :
    ∀ (s : MDNState N K) (X y : Fin N → Fin 1 → ℝ),
      (runCalls ps s (L ++ [(X, y)])).stored =
        some (networkHeads (ps (s.calls + L.length)) X) := by
  induction L with
  | nil =>
    intro s X y
    simp [runCalls, logProbCall]
  | cons c L ih =>
    intro s X y
    have h := ih (logProbCall ps s c.1 c.2).1 X y
    have hc : ((logProbCall ps s c.1 c.2).1).calls + L.length
        = s.calls + (L.length + 1) := by
      show s.calls + 1 + L.length = s.calls + (L.length + 1)
      omega
    rw [hc] at h
    simpa [runCalls, List.length_cons] using h

/-- C10: each `log_prob` call invokes `neural_network`, which consumes the
next freshly initialized parameter set from the stream and overwrites the
stored `pi`, `mus`, `sigmas`; after any sequence of calls the stored heads
are exactly those of the most recent call, and two separate calls draw
parameter sets at distinct stream positions — with independent (injective)
initialization, distinct parameter sets. -/
theorem logProbCall_fresh_params {N K : ℕ} (ps : ℕ → NNParams K)
    (s : MDNState N K) (X y : Fin N → Fin 1 → ℝ)
    (L : List ((Fin N → Fin 1 → ℝ) × (Fin N → Fin 1 → ℝ))) :
    (logProbCall ps s X y).1.stored = some (networkHeads (ps s.calls) X) ∧
      (logProbCall ps s X y).1.calls = s.calls + 1 ∧
      (logProbCall ps s X y).2 =
        mixtureLogLik (networkHeads (ps s.calls) X).pi
          (networkHeads (ps s.calls) X).mus
          (networkHeads (ps s.calls) X).sigmas y ∧
      (runCalls ps s (L ++ [(X, y)])).stored =
        some (networkHeads (ps (s.calls + L.length)) X) ∧
      (Function.Injective ps →
        ps ((logProbCall ps s X y).1.calls) ≠ ps s.calls) := by
  refine ⟨rfl, rfl, rfl, runCalls_append_stored ps L s X y, ?_⟩
  intro hinj hcontra
  exact Nat.succ_ne_self s.calls (hinj hcontra)

/-- The concrete initialization stream is injective. -/
theorem freshStream_injective : Function.Injective freshStream := by
  intro a b hab
  have h := congrArg (fun p : NNParams 1 => p.b1 0) hab
  simpa [freshStream] using h

/-- Witness for C10 on a fresh object and a single call with the zero batch,
under the concrete injective initialization stream. -/
theorem logProbCall_fresh_params_witness :
    (logProbCall freshStream startState zeroBatch zeroBatch).1.stored =
        some (networkHeads (freshStream startState.calls) zeroBatch) ∧
      (logProbCall freshStream startState zeroBatch zeroBatch).1.calls =
        startState.calls + 1 ∧
      (logProbCall freshStream startState zeroBatch zeroBatch).2 =
        mixtureLogLik (networkHeads (freshStream startState.calls) zeroBatch).pi
          (networkHeads (freshStream startState.calls) zeroBatch).mus
          (networkHeads (freshStream startState.calls) zeroBatch).sigmas
          zeroBatch ∧
      (runCalls freshStream startState
          (([] : List ((Fin 1 → Fin 1 → ℝ) × (Fin 1 → Fin 1 → ℝ))) ++
            [(zeroBatch, zeroBatch)])).stored =
        some (networkHeads (freshStream (startState.calls + 0)) zeroBatch) ∧
      freshStream ((logProbCall freshStream startState zeroBatch zeroBatch).1.calls) ≠
        freshStream startState.calls := by
  have h := logProbCall_fresh_params freshStream startState zeroBatch zeroBatch []
  exact ⟨h.1, h.2.1, h.2.2.1, h.2.2.2.1, h.2.2.2.2 freshStream_injective⟩
